import Mathlib

/-!
Verification of the EDA processor (`apps/api/src/jobs/eda_processor.py`).

The processor loads a tabular file into a pandas DataFrame and computes
column-type labels, per-column statistics, correlations, outlier sets, a
data-quality score, and an optional cleaning pass.  We embed the DataFrame as
a rectangular list of rows of cells, pandas/NumPy doubles as a four-valued
float model (`PyFloat`: finite rational, +inf, -inf, NaN), and each analysis
routine as a Lean function translated from the Python source.

Representation conventions used throughout (documented at each definition):
* a NaN stored in a column is the same thing as a missing value for pandas
  (`isna`/`dropna` treat them alike), so cells carry a single `missing`;
* statistics whose exact value involves a square root (`std`, `skewness`,
  Pearson coefficients) are recorded through a square-root-free encoding that
  preserves finiteness, NaN-ness, sign and all comparisons used by the code.
-/

namespace EDA

/-- A cell of a loaded DataFrame: a finite number, an infinity (`np.inf`,
sign in the boolean, `true` = positive), a string, or a missing value
(Python `None` / float NaN, which pandas `isna` treats alike). -/
inductive Cell where
  | num : ℚ → Cell
  | inf : Bool → Cell
  | str : String → Cell
  | missing : Cell
deriving DecidableEq, Repr

/-- The pandas storage dtype of a column, as far as the processor inspects it:
`is_integer_dtype`, other numeric dtypes, and `object` (string) columns. -/
inductive Dtype where
  | intK : Dtype
  | floatK : Dtype
  | objK : Dtype
deriving DecidableEq, Repr

/-- Whether `pd.api.types.is_numeric_dtype` holds for the dtype. -/
def Dtype.isNumeric : Dtype → Bool
  | .intK => true
  | .floatK => true
  | .objK => false

/-- A double-precision value as produced by NumPy arithmetic: finite,
positive/negative infinity, or NaN. -/
inductive PyFloat where
  | fin : ℚ → PyFloat
  | pinf : PyFloat
  | ninf : PyFloat
  | nan : PyFloat
deriving DecidableEq, Repr

/-- IEEE-754 negation. -/
def PyFloat.neg : PyFloat → PyFloat
  | .fin q => .fin (-q)
  | .pinf => .ninf
  | .ninf => .pinf
  | .nan => .nan

/-- IEEE-754 addition (NaN propagates, `+inf + -inf = NaN`). -/
def PyFloat.add : PyFloat → PyFloat → PyFloat
  | .nan, _ => .nan
  | _, .nan => .nan
  | .fin a, .fin b => .fin (a + b)
  | .fin _, .pinf => .pinf
  | .fin _, .ninf => .ninf
  | .pinf, .fin _ => .pinf
  | .ninf, .fin _ => .ninf
  | .pinf, .pinf => .pinf
  | .ninf, .ninf => .ninf
  | .pinf, .ninf => .nan
  | .ninf, .pinf => .nan

/-- IEEE-754 subtraction. -/
def PyFloat.sub (x y : PyFloat) : PyFloat := x.add y.neg

/-- IEEE-754 multiplication (NaN propagates, `0 * inf = NaN`). -/
def PyFloat.mul : PyFloat → PyFloat → PyFloat
  | .nan, _ => .nan
  | _, .nan => .nan
  | .fin a, .fin b => .fin (a * b)
  | .fin a, .pinf => if a > 0 then .pinf else if a < 0 then .ninf else .nan
  | .fin a, .ninf => if a > 0 then .ninf else if a < 0 then .pinf else .nan
  | .pinf, .fin b => if b > 0 then .pinf else if b < 0 then .ninf else .nan
  | .ninf, .fin b => if b > 0 then .ninf else if b < 0 then .pinf else .nan
  | .pinf, .pinf => .pinf
  | .pinf, .ninf => .ninf
  | .ninf, .pinf => .ninf
  | .ninf, .ninf => .pinf

/-- NumPy true division of two nonnegative machine integers
(`np.int64 / int`): division by zero yields NaN for `0 / 0` and `+inf`
for `n / 0`, `n > 0` (with a runtime warning, not an exception). -/
def pfDivNat (a b : ℕ) : PyFloat :=
  if b = 0 then (if a = 0 then .nan else .pinf) else .fin ((a : ℚ) / b)

/-- `Cell.isMissing`: what `pd.isna` reports for the cell. -/
def Cell.isMissing : Cell → Bool
  | .missing => true
  | _ => false

/-- `Cell.isInf`: what `np.isinf` reports for the cell. -/
def Cell.isInf : Cell → Bool
  | .inf _ => true
  | _ => false

/-- `astype(str)` rendering of a cell.  Strings render as themselves and a
missing value renders as the string `"nan"` (Python `str(float('nan'))`).
Finite numbers and infinities render through their decimal repr; only the
string/missing cases matter for the object-column theorems below. -/
def cellToStr : Cell → String
  | .str s => s
  | .missing => "nan"
  | .num q => toString q
  | .inf b => if b then "inf" else "-inf"

/-- ASCII whitespace, as stripped by Python `str.strip()` (the additional
Unicode space code points Python also strips play no role here). -/
def isSpaceChar (c : Char) : Bool :=
  c = ' ' ∨ c = '\t' ∨ c = '\n' ∨ c = '\r' ∨ c = '\x0b' ∨ c = '\x0c'

/-- Python `str.strip()` on the cell renderings used by the cleaning pass:
drop leading and trailing whitespace. -/
def pyStrip (s : String) : String :=
  ⟨((s.data.dropWhile isSpaceChar).reverse.dropWhile isSpaceChar).reverse⟩

/-- The finite numeric values of a column, in order: `dropna()` followed by
the `np.isfinite` filter (missing cells are NaN for pandas; infinities are
dropped by the finiteness filter). -/
def finiteVals (cells : List Cell) : List ℚ :=
  cells.filterMap fun c => match c with
    | .num q => some q
    | _ => none

/-- `dropna()`: the non-missing cells of a column, in order. -/
def nonMissingCells (cells : List Cell) : List Cell :=
  cells.filter fun c => ¬ c.isMissing

/-- The finite numeric values of a column paired with their positional index
in the original column (pandas keeps the original index labels through
`dropna`/`isfinite` filtering). -/
def cleanIndexed (cells : List Cell) : List (ℕ × ℚ) :=
  cells.enum.filterMap fun p => match p.2 with
    | .num q => some (p.1, q)
    | _ => none

/-- Remove duplicates keeping the first occurrence of each value, like
`DataFrame.drop_duplicates()`.  (`seen` accumulates values already kept.) -/
def dropDupsAux [DecidableEq α] (seen : List α) : List α → List α
  | [] => []
  | x :: xs => if x ∈ seen then dropDupsAux seen xs else x :: dropDupsAux (x :: seen) xs

/-- `drop_duplicates()` keeping first occurrences. -/
def dropDups [DecidableEq α] (l : List α) : List α := dropDupsAux [] l

/-- Number of elements that duplicate an earlier element, i.e.
`DataFrame.duplicated().sum()`. -/
def dupCountAux [DecidableEq α] (seen : List α) : List α → ℕ
  | [] => 0
  | x :: xs => (if x ∈ seen then 1 else 0) + dupCountAux (x :: seen) xs

/-- `duplicated().sum()`: how many rows are exact duplicates of an earlier row. -/
def dupCount [DecidableEq α] (l : List α) : ℕ := dupCountAux [] l

/-- `Series.nunique()`: number of distinct non-missing values. -/
def nunique (cells : List Cell) : ℕ := (dropDups (nonMissingCells cells)).length

/-- A loaded DataFrame: column names, column dtypes, and the rows.  A table
is well-formed (`Table.WF`) when every row has one cell per column. -/
structure Table where
  names : List String
  dtypes : List Dtype
  rows : List (List Cell)
deriving DecidableEq, Repr

def Table.ncols (t : Table) : ℕ := t.names.length

def Table.nrows (t : Table) : ℕ := t.rows.length

def Table.WF (t : Table) : Prop :=
  t.dtypes.length = t.ncols ∧ ∀ r ∈ t.rows, r.length = t.ncols

instance (t : Table) : Decidable t.WF := by
  unfold Table.WF; infer_instance

/-- The `j`-th column of the table, top to bottom. -/
def Table.col (t : Table) (j : ℕ) : List Cell :=
  t.rows.map fun r => r.getD j Cell.missing

def Table.dtype (t : Table) (j : ℕ) : Dtype := t.dtypes.getD j .objK

def Table.name (t : Table) (j : ℕ) : String := t.names.getD j ""

/-- Indices of the columns selected by `select_dtypes(include=[np.number])`. -/
def numericIdx (t : Table) : List ℕ :=
  (List.range t.ncols).filter fun j => (t.dtype j).isNumeric

/-- Indices of the columns selected by `select_dtypes(include=['object'])`. -/
def objectIdx (t : Table) : List ℕ :=
  (List.range t.ncols).filter fun j => t.dtype j = .objK

/-! ### Quantiles and moments -/

/-- Ascending stable sort of the values (pandas sorts before interpolating). -/
def sortQ (xs : List ℚ) : List ℚ := List.insertionSort (· ≤ ·) xs

/-- Floor of a nonnegative rational, as a natural number. -/
def ratFloorNat (q : ℚ) : ℕ := q.num.toNat / q.den

/-- `Series.quantile(p)` with the default linear interpolation: on the sorted
values `s` of length `n`, the virtual position is `p * (n - 1)`; the result
interpolates linearly between the values at the floor of that position and
the next one.  Meaningful for a nonempty list and `0 ≤ p ≤ 1`. -/
def quantileLinear (xs : List ℚ) (p : ℚ) : ℚ :=
  let s := sortQ xs
  let pos : ℚ := p * ((s.length : ℚ) - 1)
  let lo : ℕ := ratFloorNat pos
  let a := s.getD lo 0
  let b := s.getD (lo + 1) a
  a + (pos - (lo : ℚ)) * (b - a)

/-- Mean of a list of rationals (`Series.mean()` on nonempty data). -/
def meanQ (xs : List ℚ) : ℚ := xs.sum / xs.length

/-- Central moment of order `k` with denominator `n`, as used by
`scipy.stats.skew`/`kurtosis` (bias uncorrected). -/
def centralMoment (xs : List ℚ) (k : ℕ) : ℚ :=
  ((xs.map fun x => (x - meanQ xs) ^ k).sum) / xs.length

/-- Unbiased sample variance (`ddof=1`), the square of `Series.std()`; only
meaningful for two or more values. -/
def sampleVar (xs : List ℚ) : ℚ :=
  ((xs.map fun x => (x - meanQ xs) ^ 2).sum) / ((xs.length : ℚ) - 1)

/-- `Series.std()` (sample standard deviation, `ddof=1`).  The code reports
`sqrt(sampleVar)`, which is finite exactly when the radicand is, and is NaN
for a single value (`0 / 0`).  We record the radicand in the finite case:
`fin v` stands for the finite double `sqrt v`. -/
def stdEnc (xs : List ℚ) : PyFloat :=
  if xs.length ≥ 2 then .fin (sampleVar xs) else .nan

/-- `scipy.stats.skew`: `g1 = m3 / m2^1.5`, NaN when the variance `m2` is
zero (in particular for constant or single-value data).  In the finite case
we record `sign(g1) * g1^2 = m3 * |m3| / m2^3`, a strictly monotone
square-root-free encoding of the real value. -/
def skewEnc (xs : List ℚ) : PyFloat :=
  let m2 := centralMoment xs 2
  let m3 := centralMoment xs 3
  if m2 = 0 then .nan else .fin (m3 * |m3| / m2 ^ 3)

/-- `scipy.stats.kurtosis` (Fisher): `m4 / m2^2 - 3`, NaN when `m2 = 0`.
This value is exactly rational, no encoding needed. -/
def kurtosisEnc (xs : List ℚ) : PyFloat :=
  let m2 := centralMoment xs 2
  if m2 = 0 then .nan else .fin (centralMoment xs 4 / m2 ^ 2 - 3)

/-- Minimum of a nonempty list of rationals (`Series.min()`). -/
def minQ (xs : List ℚ) : ℚ := (sortQ xs).headD 0

/-- Maximum of a nonempty list of rationals (`Series.max()`). -/
def maxQ (xs : List ℚ) : ℚ := (sortQ xs).getLastD 0

/-! ### Numeric statistics (`_calculate_numeric_stats`) -/

/-- The IQR outlier summary embedded in the numeric statistics block. -/
structure OutlierSummary where
  count : ℕ
  percentage : ℚ
  lowerBound : ℚ
  upperBound : ℚ
deriving DecidableEq, Repr

/-- The numeric statistics block.  `std`, `skewness` use the square-root-free
encodings documented at `stdEnc` and `skewEnc`. -/
structure NumStats where
  count : ℕ
  mean : ℚ
  median : ℚ
  std : PyFloat
  min : ℚ
  max : ℚ
  q1 : ℚ
  q3 : ℚ
  iqr : ℚ
  skewness : PyFloat
  kurtosis : PyFloat
  outliers : OutlierSummary
deriving DecidableEq, Repr

/-- Body of `_calculate_numeric_stats` on the cleaned (finite, non-missing)
values; the caller guarantees the list is nonempty. -/
def numericStats (xs : List ℚ) : NumStats :=
  let q1 := quantileLinear xs (1/4)
  let q3 := quantileLinear xs (3/4)
  let iqr := q3 - q1
  let lowerBound := q1 - 3/2 * iqr
  let upperBound := q3 + 3/2 * iqr
  let outs := xs.filter fun v => v < lowerBound ∨ v > upperBound
  { count := xs.length
    mean := meanQ xs
    median := quantileLinear xs (1/2)
    std := stdEnc xs
    min := minQ xs
    max := maxQ xs
    q1 := q1
    q3 := q3
    iqr := iqr
    skewness := skewEnc xs
    kurtosis := kurtosisEnc xs
    outliers :=
      { count := outs.length
        percentage := (outs.length : ℚ) / xs.length * 100
        lowerBound := lowerBound
        upperBound := upperBound } }

/-- `_calculate_numeric_stats`: drop missing and non-finite values; report an
error marker when nothing remains, the statistics block otherwise. -/
def numericStatsOf (cells : List Cell) : Except String NumStats :=
  if finiteVals cells = [] then .error "No valid numeric data"
  else .ok (numericStats (finiteVals cells))

/-! ### Outlier detection (`detect_outliers` and its strategies) -/

/-- Per-column result of one outlier strategy.  `bounds` is populated by the
IQR strategy only. -/
structure OutRes where
  count : ℕ
  percentage : ℚ
  indices : List ℕ
  values : List ℚ
  bounds : Option (ℚ × ℚ)
deriving DecidableEq, Repr

/-- `_detect_outliers_iqr` on the indexed clean data of a column. -/
def iqrOutRes (data : List (ℕ × ℚ)) : OutRes :=
  let xs := data.map (·.2)
  let q1 := quantileLinear xs (1/4)
  let q3 := quantileLinear xs (3/4)
  let iqr := q3 - q1
  let lower := q1 - 3/2 * iqr
  let upper := q3 + 3/2 * iqr
  let outs := data.filter fun p => p.2 < lower ∨ p.2 > upper
  { count := outs.length
    percentage := (outs.length : ℚ) / xs.length * 100
    indices := outs.map (·.1)
    values := outs.map (·.2)
    bounds := some (lower, upper) }

/-- `_detect_outliers_zscore`: flags values with `|zscore| > 3`.
`scipy.stats.zscore` uses the population standard deviation `sqrt(m2)`;
for `m2 = 0` every z-score is NaN and `NaN > 3` is false, so nothing is
flagged.  For `m2 > 0`, `|x - mean| / sqrt(m2) > 3  ↔  n * (x - mean)^2 >
9 * Σ(x - mean)^2`, which is the square-root-free test used here. -/
def zscoreOutRes (data : List (ℕ × ℚ)) : OutRes :=
  let xs := data.map (·.2)
  let μ := meanQ xs
  let ss := (xs.map fun x => (x - μ) ^ 2).sum
  let outs := if ss = 0 then []
    else data.filter fun p => (p.2 - μ) ^ 2 * xs.length > 9 * ss
  { count := outs.length
    percentage := (outs.length : ℚ) / xs.length * 100
    indices := outs.map (·.1)
    values := outs.map (·.2)
    bounds := none }

/-- `detect_outliers`: iterate the numeric-dtype columns, skip those with no
finite non-missing value, and dispatch on the method name; any other method
name silently skips every column (`else: continue`).  The isolation-forest
and LOF strategies call into scikit-learn, outside this repository; they are
taken as parameters `isoF`, `lofF`. -/
def detectOutliers (t : Table) (method : String)
    (isoF lofF : List (ℕ × ℚ) → OutRes) : String × List (String × OutRes) :=
  let res := (numericIdx t).filterMap fun j =>
    let data := cleanIndexed (t.col j)
    if data = [] then none
    else if method = "iqr" then some (t.name j, iqrOutRes data)
    else if method = "zscore" then some (t.name j, zscoreOutRes data)
    else if method = "isolation_forest" then some (t.name j, isoF data)
    else if method = "lof" then some (t.name j, lofF data)
    else none
  (method, res)

/-! ### Column type detection (`_detect_single_column_type`) -/

/-- Whether `pd.to_datetime(value, errors='raise')` succeeds on a non-missing
cell.  Timestamp parsing is done by pandas, outside this repository: the
string case is taken as a parameter `dtParse`; bare numbers parse (pandas
reads them as epoch offsets) and infinities do not. -/
def cellParsesDatetime (dtParse : String → Bool) : Cell → Bool
  | .str s => dtParse s
  | .num _ => true
  | .inf _ => false
  | .missing => true

/-- `_detect_single_column_type`.  Priority chain: empty, numeric dtype
(with the low-cardinality integer rule), datetime, low unique ratio, long
average string length, categorical fallback. -/
def detectSingleColumnType (dtParse : String → Bool) (dty : Dtype)
    (cells : List Cell) : String :=
  let nonNull := nonMissingCells cells
  if nonNull = [] then "empty"
  else if dty.isNumeric then
    if dty = .intK then
      if (nunique cells : ℚ) / cells.length < 1/2 ∧ nunique cells < 50 then
        "categorical"
      else "numeric"
    else "numeric"
  else if nonNull.all (cellParsesDatetime dtParse) then "datetime"
  else if (nunique cells : ℚ) / cells.length < 1/2 then "categorical"
  else if dty = .objK ∧
      meanQ (nonNull.map fun c => ((cellToStr c).length : ℚ)) > 50 then "text"
  else "categorical"

/-- `detect_column_types`: the label of every column, keyed by name. -/
def detectColumnTypes (dtParse : String → Bool) (t : Table) :
    List (String × String) :=
  (List.range t.ncols).map fun j =>
    (t.name j, detectSingleColumnType dtParse (t.dtype j) (t.col j))

/-! ### The loader (`load_data`) -/

/-- How `load_data` can fail: an extension outside the dispatch table raises
`ValueError` (unsupported format), and any read error is a load failure.
Both are caught and turned into a `False` return, which makes
`run_full_analysis` abort with a single top-level error result. -/
inductive LoadError where
  | unsupportedFormat : LoadError
  | loadFailure : LoadError
deriving DecidableEq, Repr

/-- Python `str.endswith`, on the character sequences. -/
def pathEndsWith (path sfx : String) : Bool := sfx.data.isSuffixOf path.data

/-- `load_data`: dispatch on the file extension.  `readResult` stands for the
outcome of the pandas reader on this path (`pd.read_csv` / `pd.read_excel`);
`.csv` and `.xlsx`/`.xls` are the only recognized extensions — any other
path, including a `.parquet` one, raises the unsupported-format error. -/
def loadData (path : String) (readResult : Except Unit Table) :
    Except LoadError Table :=
  if pathEndsWith path ".csv" then
    readResult.mapError fun _ => .loadFailure
  else if pathEndsWith path ".xlsx" || pathEndsWith path ".xls" then
    readResult.mapError fun _ => .loadFailure
  else
    .error .unsupportedFormat

/-- The top of `run_full_analysis`: a load error of either kind aborts the
whole analysis with the single top-level error result
`{'error': 'Failed to load dataset'}`. -/
def runAnalysisGate (path : String) (readResult : Except Unit Table) :
    Except String Table :=
  match loadData path readResult with
  | .error _ => .error "Failed to load dataset"
  | .ok t => .ok t

/-! ### Data quality (`analyze_data_quality`) -/

/-- The parts of the quality report the claims are about. -/
structure QualityReport where
  qualityScore : PyFloat
  completeness : PyFloat
  missingTotal : ℕ
  missingPct : PyFloat
  dupCount : ℕ
  dupPct : PyFloat
  infColsAffected : ℕ
deriving DecidableEq, Repr

/-- Total number of missing cells, `df.isna().sum().sum()`. -/
def missingCells (t : Table) : ℕ :=
  (t.rows.map fun r => r.countP (·.isMissing)).sum

/-- Number of numeric columns containing at least one infinite value,
`len(infinite_by_column)`. -/
def infColsCount (t : Table) : ℕ :=
  ((numericIdx t).filter fun j => (t.col j).any (·.isInf)).length

/-- `analyze_data_quality`.  The missing/duplicate ratios are NumPy integer
divisions (NaN/inf on a zero denominator, see `pfDivNat`); the validity
ratio `len(infinite_by_column) / len(df.columns)` is a plain Python
division, which raises `ZeroDivisionError` on a table with no columns —
modelled as the `Except` error. -/
def analyzeDataQuality (t : Table) : Except Unit QualityReport :=
  let total := t.nrows * t.ncols
  let missing := missingCells t
  let dup := dupCount t.rows
  let infCols := infColsCount t
  let completeness := PyFloat.sub (.fin 1) (pfDivNat missing total)
  let uniqueness := PyFloat.sub (.fin 1) (pfDivNat dup t.nrows)
  if t.ncols = 0 then .error ()
  else
    let validity : PyFloat := .fin (1 - (infCols : ℚ) / t.ncols)
    let score :=
      PyFloat.mul
        (PyFloat.add
          (PyFloat.add (PyFloat.mul completeness (.fin (1/2)))
            (PyFloat.mul uniqueness (.fin (3/10))))
          (PyFloat.mul validity (.fin (1/5))))
        (.fin 100)
    .ok
      { qualityScore := score
        completeness := PyFloat.mul completeness (.fin 100)
        missingTotal := missing
        missingPct := PyFloat.mul (pfDivNat missing total) (.fin 100)
        dupCount := dup
        dupPct := PyFloat.mul (pfDivNat dup t.nrows) (.fin 100)
        infColsAffected := infCols }

/-! ### Correlations (`calculate_correlations`) -/

/-- One entry of the pairwise correlation matrix.  `val cov varProd` encodes
the defined coefficient `r = cov / sqrt(varProd)` (`varProd > 0` there):
this square-root-free pair determines `r` and every comparison the code
performs on it.  `nan` covers the cases where pandas produces NaN: no
overlap, zero variance on a side, or infinities in the paired data. -/
inductive CorrEntry where
  | nan : CorrEntry
  | val : ℚ → ℚ → CorrEntry
deriving DecidableEq, Repr

/-- The rows where both columns are non-missing, as pandas pairwise-complete
correlation uses. -/
def pairedCells (t : Table) (j1 j2 : ℕ) : List (Cell × Cell) :=
  t.rows.filterMap fun r =>
    let a := r.getD j1 Cell.missing
    let b := r.getD j2 Cell.missing
    if a.isMissing ∨ b.isMissing then none else some (a, b)

/-- The matrix entry `corr_matrix.loc[col_j1, col_j2]` for Pearson: centered
cross-products over the pairwise-complete rows.  Any infinity in the paired
data makes every downstream NumPy aggregate NaN. -/
def corrEntry (t : Table) (j1 j2 : ℕ) : CorrEntry :=
  let pd := pairedCells t j1 j2
  if pd.any fun p => p.1.isInf || p.2.isInf then .nan
  else
    let xs : List (ℚ × ℚ) := pd.filterMap fun p => match p with
      | (.num a, .num b) => some (a, b)
      | _ => none
    let mx := meanQ (xs.map (·.1))
    let my := meanQ (xs.map (·.2))
    let cov := (xs.map fun p => (p.1 - mx) * (p.2 - my)).sum
    let vx := (xs.map fun p => (p.1 - mx) ^ 2).sum
    let vy := (xs.map fun p => (p.2 - my) ^ 2).sum
    if vx = 0 ∨ vy = 0 then .nan else .val cov (vx * vy)

/-- `_classify_correlation_strength` on the encoded coefficient
`r = cov / sqrt(varProd)`: for `varProd > 0` and a threshold `t ≥ 0`,
`|r| ≥ t  ↔  cov^2 ≥ t^2 * varProd`. -/
def classifyStrengthEnc (cov varProd : ℚ) : String :=
  if cov ^ 2 ≥ 49/100 * varProd then "strong"
  else if cov ^ 2 ≥ 16/100 * varProd then "moderate"
  else if cov ^ 2 ≥ 4/100 * varProd then "weak"
  else "very_weak"

/-- One element of the `correlations` list (`column1`, `column2`, encoded
coefficient, strength bucket; the p-value is not tracked beyond the
exception its computation can raise). -/
structure CorrEdge where
  column1 : String
  column2 : String
  cov : ℚ
  varProd : ℚ
  strength : String
deriving DecidableEq, Repr

/-- The ordered `(i, j)` pairs with `i` before `j`, as the double loop
`for i ...: for j in range(i+1, ...)` generates them. -/
def upperPairs : List ℕ → List (ℕ × ℕ)
  | [] => []
  | x :: xs => (xs.map fun y => (x, y)) ++ upperPairs xs

/-- Number of non-missing entries of column `j` (the length of
`df[col].dropna()` handed to `scipy.stats.pearsonr`). -/
def nonMissingCount (t : Table) (j : ℕ) : ℕ := (nonMissingCells (t.col j)).length

/-- The edge-building loop.  A NaN matrix entry is skipped.  For a non-NaN
entry with method `pearson` or `spearman` the code computes a p-value from
the two *separately* `dropna`-ed columns; `scipy` raises `ValueError` when
their lengths differ, modelled as the `Except` error aborting the loop. -/
def buildEdges (t : Table) (method : String) :
    List (ℕ × ℕ) → Except Unit (List CorrEdge)
  | [] => .ok []
  | (i, j) :: rest =>
    match corrEntry t i j with
    | .nan => buildEdges t method rest
    | .val cov vp =>
      if (method = "pearson" ∨ method = "spearman") ∧
          nonMissingCount t i ≠ nonMissingCount t j then .error ()
      else
        match buildEdges t method rest with
        | .error e => .error e
        | .ok es => .ok
            ({ column1 := t.name i, column2 := t.name j, cov := cov,
               varProd := vp, strength := classifyStrengthEnc cov vp } :: es)

/-- Stable descending sort by absolute coefficient
(`correlations.sort(key=..., reverse=True)`): `|r1| ≥ |r2|  ↔
cov1^2 * varProd2 ≥ cov2^2 * varProd1` on the encodings. -/
def sortEdges (es : List CorrEdge) : List CorrEdge :=
  List.insertionSort
    (fun e1 e2 => e1.cov ^ 2 * e2.varProd ≥ e2.cov ^ 2 * e1.varProd) es

/-- The success payload of `calculate_correlations`. -/
structure CorrOutput where
  method : String
  matrix : List (List CorrEntry)
  edges : List CorrEdge
  columns : List String
deriving DecidableEq, Repr

/-- The three ways `calculate_correlations` can end: one of the two returned
`{'error': ...}` values, an escaped exception from the p-value computation,
or the result dictionary. -/
inductive CorrOutcome where
  | errVal : String → CorrOutcome
  | raised : CorrOutcome
  | ok : CorrOutput → CorrOutcome
deriving DecidableEq, Repr

/-- Numeric-dtype columns that keep at least one finite value after
`dropna` + `isfinite` (the `valid_cols` filter). -/
def validIdx (t : Table) : List ℕ :=
  (numericIdx t).filter fun j => finiteVals (t.col j) ≠ []

/-- `calculate_correlations`. -/
def calculateCorrelations (t : Table) (method : String) : CorrOutcome :=
  if (numericIdx t).length < 2 then
    .errVal "Not enough numeric columns for correlation"
  else if (validIdx t).length < 2 then
    .errVal "Not enough valid numeric columns"
  else
    match buildEdges t method (upperPairs (validIdx t)) with
    | .error _ => .raised
    | .ok es => .ok
        { method := method
          matrix := (validIdx t).map fun i =>
            (validIdx t).map fun j => corrEntry t i j
          edges := sortEdges es
          columns := (validIdx t).map (t.name ·) }

/-- The edge the loop body produces for one `(i, j)` pair — `none` when the
matrix entry is NaN and the pair is skipped. -/
def edgeOfPair (t : Table) (pr : ℕ × ℕ) : Option CorrEdge :=
  match corrEntry t pr.1 pr.2 with
  | .nan => none
  | .val cov vp => some
      { column1 := t.name pr.1, column2 := t.name pr.2, cov := cov,
        varProd := vp, strength := classifyStrengthEnc cov vp }

/-! ### Cleaning (`apply_cleaning`) -/

/-- The named cleaning options and the protected-column exclusion set. -/
structure CleanOptions where
  dropDuplicates : Bool
  fillMissing : Bool
  standardizeText : Bool
  removeOutliers : Bool
  protectedColumns : List String
deriving DecidableEq, Repr

/-- One cleaning log entry (the wall-clock timestamp the code attaches is
not modelled). -/
structure LogEntry where
  action : String
  reason : String
  count : ℕ
deriving DecidableEq, Repr

/-- The dictionary `apply_cleaning` returns. -/
structure CleanResult where
  originalRows : ℕ
  finalRows : ℕ
  droppedDuplicates : ℕ
  filledMissing : ℕ
  outliersCapped : ℕ
  textStandardized : ℕ
  beforeQualityScore : ℤ
  afterQualityScore : ℤ
  logs : List LogEntry
  intents : List (String × String)
deriving DecidableEq, Repr

/-- Column `j` of a bare row list. -/
def getColR (rows : List (List Cell)) (j : ℕ) : List Cell :=
  rows.map fun r => r.getD j Cell.missing

/-- Rewrite column `j` cell-wise (assignment `df_clean[col] = series`). -/
def mapColCell (j : ℕ) (f : Cell → Cell) (rows : List (List Cell)) :
    List (List Cell) :=
  rows.map fun r => r.set j (f (r.getD j Cell.missing))

/-- A total comparison on cells mirroring how pandas sorts the candidates of
`Series.mode()` (ascending; only homogeneous columns reach it). -/
def cellLe : Cell → Cell → Bool
  | .num a, .num b => a ≤ b
  | .str a, .str b => a ≤ b
  | _, _ => true

/-- `Series.mode().iloc[0]`: the smallest among the most frequent non-missing
values, or the literal fallback `"Unknown"` when the mode list is empty
(all-missing column). -/
def modeCellD (cells : List Cell) : Cell :=
  let nm := nonMissingCells cells
  let distinct := dropDups nm
  let maxCount := (distinct.map fun c => nm.count c).foldr max 0
  let cands := distinct.filter fun c => nm.count c = maxCount
  (List.insertionSort (fun a b => cellLe a b) cands).headD (.str "Unknown")

/-- The fill value for one column: the column median for a `numeric`-labelled
column, the modal value otherwise (columns containing infinities are not
modelled faithfully here — pandas' median would propagate them — and are
excluded by hypothesis wherever this step matters below). -/
def fillValue (dtParse : String → Bool) (dty : Dtype) (cells : List Cell) :
    Cell :=
  if detectSingleColumnType dtParse dty cells = "numeric" then
    .num (quantileLinear (finiteVals cells) (1/2))
  else modeCellD cells

/-- Number of missing cells in column `j`. -/
def colMissingCount (rows : List (List Cell)) (j : ℕ) : ℕ :=
  (getColR rows j).countP (·.isMissing)

/-- Step 2, the imputation loop over all columns in order: protected columns
are skipped, a column with missing cells is filled with its `fillValue`, and
the missing count is added to the running total. -/
def stepFill (dtParse : String → Bool) (prot : List String)
    (names : List String) (dtypes : List Dtype) :
    List ℕ → List (List Cell) → List (List Cell) × ℕ
  | [], rows => (rows, 0)
  | j :: js, rows =>
    if names.getD j "" ∈ prot then stepFill dtParse prot names dtypes js rows
    else
      let mc := colMissingCount rows j
      if mc = 0 then stepFill dtParse prot names dtypes js rows
      else
        let fv := fillValue dtParse (dtypes.getD j .objK) (getColR rows j)
        let next := stepFill dtParse prot names dtypes js
          (mapColCell j (fun c => if c.isMissing then fv else c) rows)
        (next.1, mc + next.2)

/-- Number of cells of column `j` whose `astype(str)` rendering is changed
by `str.strip()`. -/
def colStripChanges (rows : List (List Cell)) (j : ℕ) : ℕ :=
  (getColR rows j).countP fun c => decide (cellToStr c ≠ pyStrip (cellToStr c))

/-- Step 3, the whitespace loop over the object-dtype columns: protected
columns are skipped; when any cell's string rendering changes, the whole
column is replaced by the stripped renderings (note this also coerces
missing cells to the string `"nan"`, as `astype(str)` does). -/
def stepText (prot : List String) (names : List String) :
    List ℕ → List (List Cell) → List (List Cell) × ℕ
  | [], rows => (rows, 0)
  | j :: js, rows =>
    if names.getD j "" ∈ prot then stepText prot names js rows
    else
      let changes := colStripChanges rows j
      if changes = 0 then stepText prot names js rows
      else
        let next := stepText prot names js
          (mapColCell j (fun c => .str (pyStrip (cellToStr c))) rows)
        (next.1, changes + next.2)

/-- Whether a row is flagged by the IQR filter of column `j` with bounds
`lo`/`hi`: `(df[col] < lower) | (df[col] > upper)`.  Missing cells compare
false on both sides; infinities compare as the limits. -/
def rowIsOutlier (j : ℕ) (lo hi : ℚ) (r : List Cell) : Bool :=
  match r.getD j Cell.missing with
  | .num q => q < lo ∨ q > hi
  | .inf _ => true
  | _ => false

/-- The IQR outlier count of column `j` over the current rows (zero when the
column has no finite values: the bounds are then NaN and every comparison is
false).  Bounds come from the column's finite values; see `fillValue` for
the infinity caveat. -/
def colOutlierCount (rows : List (List Cell)) (j : ℕ) : ℕ :=
  let vals := finiteVals (getColR rows j)
  if vals = [] then 0
  else
    let q1 := quantileLinear vals (1/4)
    let q3 := quantileLinear vals (3/4)
    let lo := q1 - 3/2 * (q3 - q1)
    let hi := q3 + 3/2 * (q3 - q1)
    rows.countP (rowIsOutlier j lo hi)

/-- Step 4, the outlier-removal loop over the numeric-dtype columns:
protected columns are skipped; rows outside the column's own bounds
(recomputed on the current, already filtered rows) are dropped. -/
def stepOutliers (prot : List String) (names : List String) :
    List ℕ → List (List Cell) → List (List Cell) × ℕ
  | [], rows => (rows, 0)
  | j :: js, rows =>
    if names.getD j "" ∈ prot then stepOutliers prot names js rows
    else
      let vals := finiteVals (getColR rows j)
      if vals = [] then stepOutliers prot names js rows
      else
        let q1 := quantileLinear vals (1/4)
        let q3 := quantileLinear vals (3/4)
        let lo := q1 - 3/2 * (q3 - q1)
        let hi := q3 + 3/2 * (q3 - q1)
        let cnt := rows.countP (rowIsOutlier j lo hi)
        if cnt = 0 then stepOutliers prot names js rows
        else
          let next := stepOutliers prot names js
            (rows.filter fun r => ¬ rowIsOutlier j lo hi r)
          (next.1, cnt + next.2)

/-- Python `int()` on a quality score: truncation toward zero on a finite
double, `ValueError`/`OverflowError` on NaN or an infinity (modelled as the
`Except` error). -/
def intOfPyFloat : PyFloat → Except Unit ℤ
  | .fin q => .ok (if 0 ≤ q then ⌊q⌋ else -⌊-q⌋)
  | _ => .error ()

/-- The four cleaning steps on a copy of the rows, in the fixed order
dedup → fill → strip → outliers, with the per-step change counters. -/
def cleanSteps (dtParse : String → Bool) (t : Table) (opts : CleanOptions) :
    List (List Cell) × ℕ × ℕ × ℕ × ℕ :=
  let prot := opts.protectedColumns
  let (rows1, dropped) :=
    if opts.dropDuplicates then
      (dropDups t.rows, t.rows.length - (dropDups t.rows).length)
    else (t.rows, 0)
  let (rows2, filled) :=
    if opts.fillMissing then
      stepFill dtParse prot t.names t.dtypes (List.range t.ncols) rows1
    else (rows1, 0)
  let (rows3, textn) :=
    if opts.standardizeText then stepText prot t.names (objectIdx t) rows2
    else (rows2, 0)
  let (rows4, outn) :=
    if opts.removeOutliers then stepOutliers prot t.names (numericIdx t) rows3
    else (rows3, 0)
  (rows4, dropped, filled, textn, outn)

/-- The log list: each step that changed something appends its entry, in
step order. -/
def cleanLogs (dropped filled textn outn : ℕ) : List LogEntry :=
  (if dropped > 0 then
    [⟨"Deduplication", "Exact duplicate rows detected", dropped⟩] else []) ++
  (if filled > 0 then
    [⟨"Imputation", "Missing values filled with median/mode", filled⟩] else []) ++
  (if textn > 0 then
    [⟨"Standardization", "Whitespace stripped from text columns", textn⟩] else []) ++
  (if outn > 0 then
    [⟨"Outlier Removal", "Rows with values outside 1.5*IQR removed", outn⟩] else [])

/-- The processor object: the only state `apply_cleaning` touches is the
in-memory DataFrame `self.df`. -/
structure ProcState where
  df : Table
deriving DecidableEq, Repr

/-- `apply_cleaning`, with the processor state threaded explicitly.  The
steps run on a copy `df_clean`; to recompute the quality score the code
swaps the copy into `self.df`, calls `analyze_data_quality`, and swaps the
original back before building the result, so the state handed back is the
one it started from.  Building the result can still raise: `int()` on a NaN
quality score (empty table) or the `ZeroDivisionError` inside the quality
analysis of a zero-column table. -/
def applyCleaningState (dtParse : String → Bool) (s : ProcState)
    (opts : CleanOptions) : Except Unit CleanResult × ProcState :=
  let t := s.df
  let originalRows := t.nrows
  let initialQ := analyzeDataQuality t
  let (rows4, dropped, filled, textn, outn) := cleanSteps dtParse t opts
  let tempDf := s.df
  let s1 : ProcState := { df := { t with rows := rows4 } }
  let finalQ := analyzeDataQuality s1.df
  let s2 : ProcState := { df := tempDf }
  let result : Except Unit CleanResult :=
    match initialQ, finalQ with
    | .ok iq, .ok fq =>
      match intOfPyFloat iq.qualityScore, intOfPyFloat fq.qualityScore with
      | .ok bs, .ok as' => .ok
          { originalRows := originalRows
            finalRows := rows4.length
            droppedDuplicates := dropped
            filledMissing := filled
            outliersCapped := outn
            textStandardized := textn
            beforeQualityScore := bs
            afterQualityScore := as'
            logs := cleanLogs dropped filled textn outn
            intents := (List.range t.ncols).map fun j =>
              (t.name j, detectSingleColumnType dtParse (t.dtype j) (getColR rows4 j)) }
      | _, _ => .error ()
    | _, _ => .error ()
  (result, s2)

/-- `apply_cleaning` as seen by the caller: just the returned dictionary. -/
def applyCleaning (dtParse : String → Bool) (t : Table) (opts : CleanOptions) :
    Except Unit CleanResult :=
  (applyCleaningState dtParse ⟨t⟩ opts).1

/-! ### Concrete example tables and auxiliary closed forms -/

/-- A one-row one-column table used as a concrete read result. -/
def tinyTable : Table := ⟨["a"], [.floatK], [[.num 1]]⟩

/-- The exact finite quality score of a table with at least one row and one
column, as the closed formula of the claim. -/
def qScoreFormula (t : Table) : ℚ :=
  ((1 - (missingCells t : ℚ) / (t.nrows * t.ncols)) * (1/2) +
    (1 - (dupCount t.rows : ℚ) / t.nrows) * (3/10) +
    (1 - (infColsCount t : ℚ) / t.ncols) * (1/5)) * 100

/-- A table with one float column and no rows. -/
def zeroRowTable : Table := ⟨["a"], [.floatK], []⟩

/-- A trivial outlier result used to instantiate the external strategies. -/
def noopOut : OutRes := ⟨0, 0, [], [], none⟩

/-- A one-integer-column table for the C9 witness. -/
def t9 : Table := ⟨["a"], [.intK], [[.num 1], [.num 2], [.num 3]]⟩

/-- A clean two-row float table (no duplicates, no missing values, no
whitespace, no IQR outliers), used for the C8 witness. -/
def c8Table : Table := ⟨["a"], [.floatK], [[.num 1], [.num 2]]⟩

/-- Two valid numeric columns whose Pearson coefficient is NaN (`y` is
constant, so its variance vanishes), used against claim C5. -/
def c5NanTable : Table :=
  ⟨["x", "y"], [.floatK, .floatK], [[.num 1, .num 5], [.num 2, .num 5]]⟩

/-- A five-row string column with trailing whitespace whose detected label is
`categorical` (unique ratio 2/5 < 0.5), used against claim C7. -/
def c7Table : Table :=
  ⟨["c"], [.objK],
    [[.str "a "], [.str "a "], [.str "a "], [.str "a "], [.str "b"]]⟩

/-! ## Theorems -/

lemma Table.col_eq (t : Table) (j : ℕ) : t.col j = getColR t.rows j := rfl


/-- Claim C4.  The claim says a `.parquet` path loads into a Table; in the
code the dispatch in `load_data` only recognizes `.csv` and `.xlsx`/`.xls`,
so a `.parquet` path raises the unsupported-format `ValueError` even when
the file is perfectly readable, and the whole analysis aborts with the
single top-level error result.  (The repository itself reads and writes
parquet elsewhere — the preview route and the cleaning save path — which
marks the missing branch as a slip.)  The claim's remaining parts do hold:
an extension outside the dispatch table is an unsupported format, and a
reader error on a recognized extension is a load failure aborting the
analysis. -/
theorem load_parquet_unsupported :
    loadData "data.parquet" (.ok tinyTable) = .error .unsupportedFormat ∧
    runAnalysisGate "data.parquet" (.ok tinyTable) =
      .error "Failed to load dataset" ∧
    loadData "data.xyz" (.ok tinyTable) = .error .unsupportedFormat ∧
    loadData "data.csv" (.error ()) = .error .loadFailure ∧
    loadData "data.csv" (.ok tinyTable) = .ok tinyTable ∧
    runAnalysisGate "data.csv" (.error ()) = .error "Failed to load dataset" := by
  refine ⟨?_, ?_, ?_, ?_, ?_, ?_⟩ <;> rfl

/-- Claim C10.  `apply_cleaning` mutates only a copy of the loaded frame;
after temporarily swapping the cleaned copy into `self.df` to recompute the
quality score it swaps the original back, so the processor state returned is
exactly the state it was given — for every option combination and whether or
not the result construction raises. -/
theorem apply_cleaning_restores_df (dtParse : String → Bool) (s : ProcState)
    (opts : CleanOptions) : (applyCleaningState dtParse s opts).2 = s := rfl

/-- Claim C1.  The claim (and §6 of the spec) requires that no NaN/Infinity
appear in the report, every statistic being finite or an error marker.  The
code violates this: a numeric column holding the single value `5` is labelled
`numeric`, and its statistics block carries `std = float(Series.std())`,
which with `ddof=1` on one observation is `0/0 = NaN`, emitted verbatim. -/
theorem numeric_stats_single_value_std_nan :
    detectSingleColumnType (fun _ => false) .intK [Cell.num 5] = "numeric" ∧
    ∃ st, numericStatsOf [Cell.num 5] = .ok st ∧ st.std = PyFloat.nan := by
  refine ⟨?_, ⟨_, rfl, rfl⟩⟩
  simp [detectSingleColumnType, nonMissingCells, Cell.isMissing, nunique,
    dropDups, dropDupsAux, Dtype.isNumeric]
  norm_num

/-! ### IQR bounds: the statistics block and the outlier strategy agree -/

lemma cleanIndexed_snd (cells : List Cell) :
    (cleanIndexed cells).map (fun p => p.2) = finiteVals cells := by
  have aux : ∀ (k : ℕ),
      ((List.enumFrom k cells).filterMap fun p => match p.2 with
        | Cell.num q => some (p.1, q)
        | _ => none).map (fun p : ℕ × ℚ => p.2) = finiteVals cells := by
    induction cells with
    | nil => intro k; rfl
    | cons c cs ih =>
      intro k
      cases c <;> simp [List.enumFrom, List.filterMap_cons, finiteVals, ih (k+1)]
  simpa only [cleanIndexed, List.enum] using aux 0

lemma filter_snd_length (data : List (ℕ × ℚ)) (lo hi : ℚ) :
    (data.filter fun q => decide (q.2 < lo ∨ q.2 > hi)).length =
      ((data.map fun q => q.2).filter fun v => decide (v < lo ∨ v > hi)).length := by
  rw [List.filter_map]
  simp [Function.comp_def]

/-- Claim C2.  For a column with at least one finite non-missing value, the
numeric-statistics block reports outlier bounds `lower = Q1 - 1.5 * IQR`,
`upper = Q3 + 1.5 * IQR` on the linearly interpolated quartiles of the
finite non-missing values, its outlier count is the number of those values
strictly outside the bounds, and the `iqr` outlier strategy reports the same
bounds and the same count. -/
theorem iqr_bounds_agree (cells : List Cell) (h : finiteVals cells ≠ []) :
    ∃ st, numericStatsOf cells = .ok st ∧
      st.q1 = quantileLinear (finiteVals cells) (1/4) ∧
      st.q3 = quantileLinear (finiteVals cells) (3/4) ∧
      st.iqr = st.q3 - st.q1 ∧
      st.outliers.lowerBound = st.q1 - 3/2 * st.iqr ∧
      st.outliers.upperBound = st.q3 + 3/2 * st.iqr ∧
      st.outliers.count = ((finiteVals cells).filter fun v =>
        v < st.outliers.lowerBound ∨ v > st.outliers.upperBound).length ∧
      (iqrOutRes (cleanIndexed cells)).bounds =
        some (st.outliers.lowerBound, st.outliers.upperBound) ∧
      (iqrOutRes (cleanIndexed cells)).count = st.outliers.count := by
  refine ⟨numericStats (finiteVals cells), by simp [numericStatsOf, h],
    rfl, rfl, rfl, rfl, rfl, rfl, ?_, ?_⟩
  · simp only [iqrOutRes, cleanIndexed_snd]
    rfl
  · simp only [iqrOutRes, cleanIndexed_snd, numericStats]
    rw [filter_snd_length, cleanIndexed_snd]

/-- Witness for C2 on the spec's own example column `[1,2,3,4,100]`. -/
theorem iqr_bounds_agree_witness :
    finiteVals [Cell.num 1, Cell.num 2, Cell.num 3, Cell.num 4, Cell.num 100] ≠ [] ∧
    ∃ st, numericStatsOf [Cell.num 1, Cell.num 2, Cell.num 3, Cell.num 4,
        Cell.num 100] = .ok st ∧
      st.q1 = quantileLinear (finiteVals [Cell.num 1, Cell.num 2, Cell.num 3,
        Cell.num 4, Cell.num 100]) (1/4) ∧
      st.q3 = quantileLinear (finiteVals [Cell.num 1, Cell.num 2, Cell.num 3,
        Cell.num 4, Cell.num 100]) (3/4) ∧
      st.iqr = st.q3 - st.q1 ∧
      st.outliers.lowerBound = st.q1 - 3/2 * st.iqr ∧
      st.outliers.upperBound = st.q3 + 3/2 * st.iqr ∧
      st.outliers.count = ((finiteVals [Cell.num 1, Cell.num 2, Cell.num 3,
        Cell.num 4, Cell.num 100]).filter fun v =>
          v < st.outliers.lowerBound ∨ v > st.outliers.upperBound).length ∧
      (iqrOutRes (cleanIndexed [Cell.num 1, Cell.num 2, Cell.num 3,
        Cell.num 4, Cell.num 100])).bounds =
        some (st.outliers.lowerBound, st.outliers.upperBound) ∧
      (iqrOutRes (cleanIndexed [Cell.num 1, Cell.num 2, Cell.num 3,
        Cell.num 4, Cell.num 100])).count = st.outliers.count :=
  ⟨by decide, iqr_bounds_agree _ (by decide)⟩

/-! ### Column-type detection: the numeric branch -/

/-- Claim C6.  A column with zero non-missing values is labelled `empty`
before any other rule.  A non-empty column of numeric dtype is labelled
`categorical` exactly when the dtype is integer, the unique-value ratio
(distinct non-missing values over total length) is below 0.5, and the
unique count is below 50 — and `numeric` in every other case: the numeric
branch never falls through to the datetime/ratio/text rules. -/
theorem numeric_dtype_label_rule (dtParse : String → Bool) (dty : Dtype)
    (cells : List Cell) :
    (nonMissingCells cells = [] →
      detectSingleColumnType dtParse dty cells = "empty") ∧
    (nonMissingCells cells ≠ [] → dty.isNumeric = true →
      (detectSingleColumnType dtParse dty cells = "categorical" ↔
        dty = .intK ∧ (nunique cells : ℚ) / cells.length < 1/2 ∧
          nunique cells < 50) ∧
      (detectSingleColumnType dtParse dty cells = "categorical" ∨
        detectSingleColumnType dtParse dty cells = "numeric")) := by
  constructor
  · intro h
    simp [detectSingleColumnType, h]
  · intro h hnum
    cases dty with
    | objK => simp [Dtype.isNumeric] at hnum
    | floatK => simp [detectSingleColumnType, h, Dtype.isNumeric]
    | intK =>
      by_cases hcond : (nunique cells : ℚ) / cells.length < 1/2 ∧
          nunique cells < 50
      · simp only [detectSingleColumnType, h, Dtype.isNumeric, hcond]
        simp [hcond.1, hcond.2]
      · simp [detectSingleColumnType, h, Dtype.isNumeric, hcond]
        intro _
        exact lt_or_le _ _

/-- Witness for C6: an all-missing column is `empty`; a low-cardinality
integer column falls in the categorical-or-numeric pair. -/
theorem numeric_dtype_label_rule_witness :
    detectSingleColumnType (fun _ => false) .floatK [] = "empty" ∧
    (detectSingleColumnType (fun _ => false) .intK
        [Cell.num 1, Cell.num 1, Cell.num 1, Cell.num 2] = "categorical" ∨
      detectSingleColumnType (fun _ => false) .intK
        [Cell.num 1, Cell.num 1, Cell.num 1, Cell.num 2] = "numeric") :=
  ⟨(numeric_dtype_label_rule (fun _ => false) .floatK []).1 rfl,
    ((numeric_dtype_label_rule (fun _ => false) .intK
      [Cell.num 1, Cell.num 1, Cell.num 1, Cell.num 2]).2 (by decide) rfl).2⟩

/-! ### Outlier dispatch: unknown methods and empty columns are skipped -/

/-- Claim C9.  `detect_outliers` with a method name outside the four
strategies silently skips every numeric column, returning the echoed method
name with an empty per-column mapping and no error value; and with any
method, every entry of the mapping comes from a numeric column with at
least one finite non-missing value (columns without one are skipped before
dispatch). -/
theorem detect_outliers_unknown_method (t : Table)
    (isoF lofF : List (ℕ × ℚ) → OutRes) (m : String) :
    (m ≠ "iqr" → m ≠ "zscore" → m ≠ "isolation_forest" → m ≠ "lof" →
      detectOutliers t m isoF lofF = (m, [])) ∧
    (∀ e ∈ (detectOutliers t m isoF lofF).2,
      ∃ j ∈ numericIdx t, t.name j = e.1 ∧ cleanIndexed (t.col j) ≠ []) := by
  constructor
  · intro h1 h2 h3 h4
    unfold detectOutliers
    have : ((numericIdx t).filterMap fun j =>
        let data := cleanIndexed (t.col j)
        if data = [] then none
        else if m = "iqr" then some (t.name j, iqrOutRes data)
        else if m = "zscore" then some (t.name j, zscoreOutRes data)
        else if m = "isolation_forest" then some (t.name j, isoF data)
        else if m = "lof" then some (t.name j, lofF data)
        else none) = [] := by
      rw [List.filterMap_eq_nil_iff]
      intro j _
      simp [h1, h2, h3, h4]
    rw [this]
  · intro e he
    simp only [detectOutliers] at he
    obtain ⟨j, hj, hfj⟩ := List.mem_filterMap.1 he
    refine ⟨j, hj, ?_⟩
    by_cases hd : cleanIndexed (t.col j) = []
    · simp [hd] at hfj
    · simp only [hd, if_false] at hfj
      split at hfj
      · obtain rfl := Option.some.inj hfj
        exact ⟨rfl, hd⟩
      · split at hfj
        · obtain rfl := Option.some.inj hfj
          exact ⟨rfl, hd⟩
        · split at hfj
          · obtain rfl := Option.some.inj hfj
            exact ⟨rfl, hd⟩
          · split at hfj
            · obtain rfl := Option.some.inj hfj
              exact ⟨rfl, hd⟩
            · simp at hfj



/-- Witness for C9: an unknown method returns the echoed name and an empty
mapping; an `iqr` entry always comes from a qualifying column. -/
theorem detect_outliers_unknown_method_witness :
    detectOutliers t9 "median" (fun _ => noopOut) (fun _ => noopOut) =
      ("median", []) ∧
    ∃ j ∈ numericIdx t9,
      t9.name j = ("a", iqrOutRes (cleanIndexed (t9.col 0))).1 ∧
      cleanIndexed (t9.col j) ≠ [] := by
  constructor
  · exact (detect_outliers_unknown_method t9 _ _ "median").1
      (by decide) (by decide) (by decide) (by decide)
  · exact (detect_outliers_unknown_method t9 (fun _ => noopOut)
      (fun _ => noopOut) "iqr").2 ("a", iqrOutRes (cleanIndexed (t9.col 0)))
      (List.Mem.head _)

/-! ### The whitespace-stripping step -/

lemma getColR_mapColCell_ne (rows : List (List Cell)) {j j' : ℕ} (hne : j ≠ j')
    (f : Cell → Cell) : getColR (mapColCell j f rows) j' = getColR rows j' := by
  unfold getColR mapColCell
  rw [List.map_map]
  exact List.map_congr_left fun r _ => by
    simp [Function.comp, List.getD_eq_getElem?_getD, List.getElem?_set_ne hne]

lemma getColR_mapColCell_self (rows : List (List Cell)) (j : ℕ) (f : Cell → Cell)
    (hlen : ∀ r ∈ rows, j < r.length) :
    getColR (mapColCell j f rows) j = (getColR rows j).map f := by
  unfold getColR mapColCell
  rw [List.map_map]
  rw [← List.comp_map]
  exact List.map_congr_left fun r hr => by
    simp [Function.comp, List.getD_eq_getElem?_getD, List.getElem?_set_self,
      hlen r hr]

lemma colStripChanges_congr {rows rows' : List (List Cell)} {j : ℕ}
    (h : getColR rows' j = getColR rows j) :
    colStripChanges rows' j = colStripChanges rows j := by
  unfold colStripChanges
  rw [h]

lemma mapColCell_hlen {rows : List (List Cell)} {j : ℕ} {f : Cell → Cell}
    {js : List ℕ} (hlen : ∀ r ∈ rows, ∀ i ∈ js, i < r.length) :
    ∀ r ∈ mapColCell j f rows, ∀ i ∈ js, i < r.length := by
  intro r hr i hi
  obtain ⟨r₀, hr₀, rfl⟩ := List.mem_map.mp hr
  simpa [List.length_set] using hlen r₀ hr₀ i hi

lemma stepText_spec (prot : List String) (names : List String) (js : List ℕ)
    (rows : List (List Cell)) (hnd : js.Nodup)
    (hlen : ∀ r ∈ rows, ∀ i ∈ js, i < r.length) :
    (∀ j', j' ∉ js →
      getColR (stepText prot names js rows).1 j' = getColR rows j') ∧
    (∀ j ∈ js, getColR (stepText prot names js rows).1 j =
      if names.getD j "" ∈ prot ∨ colStripChanges rows j = 0 then getColR rows j
      else (getColR rows j).map fun c => Cell.str (pyStrip (cellToStr c))) ∧
    (stepText prot names js rows).2 =
      (js.map fun j =>
        if names.getD j "" ∈ prot then 0 else colStripChanges rows j).sum := by
  induction js generalizing rows with
  | nil => exact ⟨fun _ _ => rfl, by simp, by simp [stepText]⟩
  | cons j js ih =>
    obtain ⟨hj, hndjs⟩ := List.nodup_cons.mp hnd
    have hlenjs : ∀ r ∈ rows, ∀ i ∈ js, i < r.length :=
      fun r hr i hi => hlen r hr i (List.mem_cons_of_mem _ hi)
    by_cases hp : names.getD j "" ∈ prot
    · have hstep : stepText prot names (j :: js) rows = stepText prot names js rows := by
        simp only [stepText]
        rw [if_pos hp]
      obtain ⟨ih1, ih2, ih3⟩ := ih rows hndjs hlenjs
      refine ⟨?_, ?_, ?_⟩
      · intro j' hj'
        rw [hstep]
        exact ih1 j' fun h => hj' (List.mem_cons_of_mem _ h)
      · intro j₀ hj₀
        rw [hstep]
        rcases List.mem_cons.mp hj₀ with rfl | hj₀
        · rw [ih1 j₀ hj, if_pos (Or.inl hp)]
        · exact ih2 j₀ hj₀
      · rw [hstep, List.map_cons, List.sum_cons, if_pos hp, ih3, Nat.zero_add]
    · by_cases hch : colStripChanges rows j = 0
      · have hstep : stepText prot names (j :: js) rows = stepText prot names js rows := by
          simp only [stepText]
          rw [if_neg hp, if_pos hch]
        obtain ⟨ih1, ih2, ih3⟩ := ih rows hndjs hlenjs
        refine ⟨?_, ?_, ?_⟩
        · intro j' hj'
          rw [hstep]
          exact ih1 j' fun h => hj' (List.mem_cons_of_mem _ h)
        · intro j₀ hj₀
          rw [hstep]
          rcases List.mem_cons.mp hj₀ with rfl | hj₀
          · rw [ih1 j₀ hj, if_pos (Or.inr hch)]
          · exact ih2 j₀ hj₀
        · rw [hstep, List.map_cons, List.sum_cons, if_neg hp, ih3, hch, Nat.zero_add]
      · set f : Cell → Cell := fun c => Cell.str (pyStrip (cellToStr c)) with hf
        have hstep : stepText prot names (j :: js) rows =
            ((stepText prot names js (mapColCell j f rows)).1,
              colStripChanges rows j +
                (stepText prot names js (mapColCell j f rows)).2) := by
          simp only [stepText, hf]
          rw [if_neg hp, if_neg hch]
        have hlen' : ∀ r ∈ mapColCell j f rows, ∀ i ∈ js, i < r.length :=
          mapColCell_hlen hlenjs
        obtain ⟨ih1, ih2, ih3⟩ := ih (mapColCell j f rows) hndjs hlen'
        have hcols : ∀ i ∈ js, getColR (mapColCell j f rows) i = getColR rows i :=
          fun i hi => getColR_mapColCell_ne rows (fun h => hj (by rw [h]; exact hi)) f
        refine ⟨?_, ?_, ?_⟩
        · intro j' hj'
          rw [hstep]
          have hne : j ≠ j' := fun h => hj' (h ▸ List.mem_cons_self _ _)
          rw [ih1 j' fun h => hj' (List.mem_cons_of_mem _ h),
            getColR_mapColCell_ne rows hne]
        · intro j₀ hj₀
          rw [hstep]
          rcases List.mem_cons.mp hj₀ with rfl | hj₀
          · have hlenj : ∀ r ∈ rows, j₀ < r.length :=
              fun r hr => hlen r hr j₀ (List.mem_cons_self _ _)
            rw [ih1 j₀ hj, getColR_mapColCell_self rows j₀ f hlenj,
              if_neg (by tauto)]
          · rw [ih2 j₀ hj₀, colStripChanges_congr (hcols j₀ hj₀), hcols j₀ hj₀]
        · rw [hstep]
          simp only [ih3, List.map_cons, List.sum_cons, if_neg hp]
          have hmapeq : (js.map fun i =>
              if names.getD i "" ∈ prot then 0
              else colStripChanges (mapColCell j f rows) i) =
              (js.map fun i =>
                if names.getD i "" ∈ prot then 0 else colStripChanges rows i) :=
            List.map_congr_left fun i hi => by
              rw [colStripChanges_congr (hcols i hi)]
          rw [hmapeq]

/-- Claim C7, counterexample.  The column `["a ", "a ", "a ", "a ", "b"]`
has detected type label `categorical`, not `text` — yet the strip step
rewrites it (it processes every object-dtype column) and reports 4 changed
cells.  The claim as stated says non-text-typed columns are left
unchanged. -/
theorem strip_step_hits_categorical_column :
    detectSingleColumnType (fun _ => false) .objK (c7Table.col 0) = "categorical" ∧
    (stepText [] c7Table.names (objectIdx c7Table) c7Table.rows).2 = 4 ∧
    getColR (stepText [] c7Table.names (objectIdx c7Table) c7Table.rows).1 0 ≠
      c7Table.col 0 := by
  refine ⟨?_, by decide, by decide⟩
  norm_num [detectSingleColumnType, Dtype.isNumeric, List.cons_ne_nil,
    show nonMissingCells (c7Table.col 0) =
      [Cell.str "a ", Cell.str "a ", Cell.str "a ", Cell.str "a ",
        Cell.str "b"] from rfl,
    show nunique (c7Table.col 0) = 2 from rfl,
    show (c7Table.col 0).length = 5 from rfl,
    show ([Cell.str "a ", Cell.str "a ", Cell.str "a ", Cell.str "a ",
      Cell.str "b"].all (cellParsesDatetime fun _ => false)) = false from rfl]

/-- Claim C7 (amended).  With `standardizeText` enabled the strip step is
applied exactly to the non-protected object(string)-dtype columns — columns
of non-object dtype and protected columns are left unchanged by the step
regardless of their detected type label — and the step's reported count is
the total number of cells whose `astype(str)` rendering differs from its
stripped form (a rewritten column's cells become exactly those stripped
renderings).  The original claim restricted the step to `text`-labelled
columns, which the counterexample above refutes. -/
theorem strip_step_spec (t : Table) (hwf : t.WF) (prot : List String) :
    (∀ j < t.ncols, (t.dtype j ≠ .objK ∨ t.name j ∈ prot) →
      getColR (stepText prot t.names (objectIdx t) t.rows).1 j = t.col j) ∧
    (∀ j < t.ncols, t.dtype j = .objK → t.name j ∉ prot →
      getColR (stepText prot t.names (objectIdx t) t.rows).1 j =
        if colStripChanges t.rows j = 0 then t.col j
        else (t.col j).map fun c => Cell.str (pyStrip (cellToStr c))) ∧
    (stepText prot t.names (objectIdx t) t.rows).2 =
      ((objectIdx t).map fun j =>
        if t.name j ∈ prot then 0 else colStripChanges t.rows j).sum := by
  have hnd : (objectIdx t).Nodup := List.Nodup.filter _ (List.nodup_range _)
  have hlen : ∀ r ∈ t.rows, ∀ i ∈ objectIdx t, i < r.length := by
    intro r hr i hi
    rw [hwf.2 r hr]
    exact List.mem_range.mp (List.mem_filter.mp hi).1
  obtain ⟨h1, h2, h3⟩ := stepText_spec prot t.names (objectIdx t) t.rows hnd hlen
  refine ⟨?_, ?_, ?_⟩
  · intro j _ hcond
    rcases hcond with hobj | hprot
    · refine (h1 j fun hmem => hobj ?_).trans (Table.col_eq t j).symm
      have := (List.mem_filter.mp hmem).2
      simpa using this
    · by_cases hmem : j ∈ objectIdx t
      · have hprot' : t.names.getD j "" ∈ prot := hprot
        rw [h2 j hmem, if_pos (Or.inl hprot')]
        exact (Table.col_eq t j).symm
      · exact (h1 j hmem).trans (Table.col_eq t j).symm
  · intro j hj hobj hprot
    have hmem : j ∈ objectIdx t :=
      List.mem_filter.mpr ⟨List.mem_range.mpr hj, by simp [hobj]⟩
    rw [h2 j hmem]
    by_cases hch : colStripChanges t.rows j = 0
    · rw [if_pos (Or.inr hch), if_pos hch]
      exact (Table.col_eq t j).symm
    · have hcond : ¬(t.names.getD j "" ∈ prot ∨ colStripChanges t.rows j = 0) := by
        rintro (h | h)
        · exact hprot h
        · exact hch h
      rw [if_neg hcond, if_neg hch]
      rfl
  · exact h3

/-- Witness for the amended C7 at the concrete whitespace table. -/
theorem strip_step_spec_witness :
    c7Table.WF ∧
    ((∀ j < c7Table.ncols, (c7Table.dtype j ≠ .objK ∨ c7Table.name j ∈ []) →
      getColR (stepText [] c7Table.names (objectIdx c7Table) c7Table.rows).1 j =
        c7Table.col j) ∧
    (∀ j < c7Table.ncols, c7Table.dtype j = .objK → c7Table.name j ∉ [] →
      getColR (stepText [] c7Table.names (objectIdx c7Table) c7Table.rows).1 j =
        if colStripChanges c7Table.rows j = 0 then c7Table.col j
        else (c7Table.col j).map fun c => Cell.str (pyStrip (cellToStr c))) ∧
    (stepText [] c7Table.names (objectIdx c7Table) c7Table.rows).2 =
      ((objectIdx c7Table).map fun j =>
        if c7Table.name j ∈ ([] : List String) then 0
        else colStripChanges c7Table.rows j).sum) :=
  ⟨by decide, strip_step_spec c7Table (by decide) []⟩

/-! ### Quality score: helper bounds -/

lemma dupCountAux_le [DecidableEq α] (seen : List α) (l : List α) :
    dupCountAux seen l ≤ l.length := by
  induction l generalizing seen with
  | nil => simp [dupCountAux]
  | cons x xs ih =>
    simp only [dupCountAux, List.length_cons]
    have := ih (x :: seen)
    split <;> omega

lemma dupCount_le [DecidableEq α] (l : List α) : dupCount l ≤ l.length :=
  dupCountAux_le [] l

lemma missingCells_le (t : Table) (hwf : t.WF) :
    missingCells t ≤ t.nrows * t.ncols := by
  have h : ∀ x ∈ t.rows.map (fun r => r.countP (·.isMissing)), x ≤ t.ncols := by
    intro x hx
    obtain ⟨r, hr, rfl⟩ := List.mem_map.mp hx
    calc r.countP (·.isMissing) ≤ r.length := List.countP_le_length _
    _ = t.ncols := hwf.2 r hr
  calc missingCells t ≤ (t.rows.map fun r => r.countP (·.isMissing)).length • t.ncols :=
        List.sum_le_card_nsmul _ _ h
  _ = t.nrows * t.ncols := by simp [Table.nrows, smul_eq_mul]

lemma infColsCount_le (t : Table) : infColsCount t ≤ t.ncols := by
  calc infColsCount t ≤ (numericIdx t).length := List.length_filter_le _ _
  _ ≤ (List.range t.ncols).length := List.length_filter_le _ _
  _ = t.ncols := List.length_range _

lemma analyzeDataQuality_spec (t : Table) (hr : 1 ≤ t.nrows) (hc : 1 ≤ t.ncols) :
    ∃ rep, analyzeDataQuality t = .ok rep ∧
      rep.qualityScore = .fin (qScoreFormula t) ∧
      rep.missingTotal = missingCells t ∧ rep.dupCount = dupCount t.rows ∧
      rep.infColsAffected = infColsCount t := by
  have hc0 : t.ncols ≠ 0 := by omega
  have hr0 : t.nrows ≠ 0 := by omega
  have htot : t.nrows * t.ncols ≠ 0 := Nat.mul_ne_zero hr0 hc0
  simp only [analyzeDataQuality, pfDivNat, if_neg hc0, if_neg htot, if_neg hr0]
  refine ⟨_, rfl, ?_, rfl, rfl, rfl⟩
  simp only [PyFloat.sub, PyFloat.neg, PyFloat.add, PyFloat.mul, qScoreFormula]
  push_cast
  ring_nf

lemma qScoreFormula_bounds (t : Table) (hwf : t.WF) (hr : 1 ≤ t.nrows)
    (hc : 1 ≤ t.ncols) : 0 ≤ qScoreFormula t ∧ qScoreFormula t ≤ 100 := by
  have hm := missingCells_le t hwf
  have hd := dupCount_le t.rows
  have hi := infColsCount_le t
  have hrQ : (0:ℚ) < t.nrows := by exact_mod_cast Nat.lt_of_lt_of_le Nat.zero_lt_one hr
  have hcQ : (0:ℚ) < t.ncols := by exact_mod_cast Nat.lt_of_lt_of_le Nat.zero_lt_one hc
  have htot : (0:ℚ) < (t.nrows : ℚ) * t.ncols := mul_pos hrQ hcQ
  have ha0 : (0:ℚ) ≤ (missingCells t : ℚ) / ((t.nrows : ℚ) * t.ncols) :=
    div_nonneg (by positivity) htot.le
  have ha1 : (missingCells t : ℚ) / ((t.nrows : ℚ) * t.ncols) ≤ 1 := by
    rw [div_le_one htot]
    calc (missingCells t : ℚ) ≤ ((t.nrows * t.ncols : ℕ) : ℚ) := by exact_mod_cast hm
    _ = (t.nrows : ℚ) * t.ncols := by push_cast; ring
  have hb0 : (0:ℚ) ≤ (dupCount t.rows : ℚ) / t.nrows := div_nonneg (by positivity) hrQ.le
  have hb1 : (dupCount t.rows : ℚ) / t.nrows ≤ 1 := by
    rw [div_le_one hrQ]; exact_mod_cast hd
  have he0 : (0:ℚ) ≤ (infColsCount t : ℚ) / t.ncols := div_nonneg (by positivity) hcQ.le
  have he1 : (infColsCount t : ℚ) / t.ncols ≤ 1 := by
    rw [div_le_one hcQ]; exact_mod_cast hi
  unfold qScoreFormula
  constructor <;> nlinarith

lemma qScoreFormula_eq_100 (t : Table) (hm : missingCells t = 0)
    (hd : dupCount t.rows = 0) (hi : infColsCount t = 0) :
    qScoreFormula t = 100 := by
  simp only [qScoreFormula, hm, hd, hi, Nat.cast_zero, zero_div]
  norm_num


/-- Claim C3, counterexample to the zero-row case.  On a table with one
column and zero rows both `missing_cells / total_cells` and
`duplicate_rows / len(df)` are NumPy `0 / 0` divisions, so the quality
score is NaN — it does not lie in `[0, 100]` as the claim asserts for
zero-row tables. -/
theorem quality_score_nan_on_zero_rows :
    ∃ rep, analyzeDataQuality zeroRowTable = .ok rep ∧
      rep.qualityScore = PyFloat.nan := ⟨_, rfl, rfl⟩

/-- Claim C3 (amended).  For every well-formed table with at least one row
and at least one column, the quality score is the finite value
`(completeness * 0.5 + uniqueness * 0.3 + validity * 0.2) * 100` with
completeness, uniqueness and validity as the claim defines them; it lies in
`[0, 100]`, and equals exactly 100 when there are no missing cells, no
duplicate rows and no infinite values.  (The original claim extended the
range statement to zero-row tables, which the counterexample above
refutes.) -/
theorem quality_score_formula_and_bounds (t : Table) (hwf : t.WF)
    (hr : 1 ≤ t.nrows) (hc : 1 ≤ t.ncols) :
    ∃ rep, analyzeDataQuality t = .ok rep ∧
      rep.qualityScore = .fin (qScoreFormula t) ∧
      0 ≤ qScoreFormula t ∧ qScoreFormula t ≤ 100 ∧
      (missingCells t = 0 → dupCount t.rows = 0 → infColsCount t = 0 →
        rep.qualityScore = .fin 100) := by
  obtain ⟨rep, hrep, hscore, -, -, -⟩ := analyzeDataQuality_spec t hr hc
  obtain ⟨h0, h100⟩ := qScoreFormula_bounds t hwf hr hc
  exact ⟨rep, hrep, hscore, h0, h100, fun hm hd hi => by
    rw [hscore, qScoreFormula_eq_100 t hm hd hi]⟩

/-- Witness for the amended C3 at a concrete two-row table. -/
theorem quality_score_formula_and_bounds_witness :
    (⟨["a"], [.floatK], [[.num 1], [.num 2]]⟩ : Table).WF ∧
    ∃ rep, analyzeDataQuality ⟨["a"], [.floatK], [[.num 1], [.num 2]]⟩ = .ok rep ∧
      rep.qualityScore = .fin (qScoreFormula ⟨["a"], [.floatK], [[.num 1], [.num 2]]⟩) ∧
      0 ≤ qScoreFormula ⟨["a"], [.floatK], [[.num 1], [.num 2]]⟩ ∧
      qScoreFormula ⟨["a"], [.floatK], [[.num 1], [.num 2]]⟩ ≤ 100 ∧
      (missingCells ⟨["a"], [.floatK], [[.num 1], [.num 2]]⟩ = 0 →
        dupCount (⟨["a"], [.floatK], [[.num 1], [.num 2]]⟩ : Table).rows = 0 →
        infColsCount ⟨["a"], [.floatK], [[.num 1], [.num 2]]⟩ = 0 →
        rep.qualityScore = .fin 100) :=
  ⟨by decide, quality_score_formula_and_bounds _ (by decide) (by decide) (by decide)⟩

/-! ### Evaluating linear-interpolation quantiles on two-point data -/

lemma ratFloorNat_eq_zero {q : ℚ} (h0 : 0 ≤ q) (h1 : q < 1) :
    ratFloorNat q = 0 := by
  unfold ratFloorNat
  have hden : (0:ℚ) < (q.den : ℚ) := by exact_mod_cast q.den_pos
  have hq : (q.num : ℚ) / (q.den : ℚ) < 1 := by
    rw [Rat.num_div_den]
    exact h1
  have hnum : q.num < (q.den : ℤ) := by exact_mod_cast (div_lt_one hden).mp hq
  have hnn : 0 ≤ q.num := Rat.num_nonneg.mpr h0
  exact Nat.div_eq_of_lt (by omega)

lemma sortQ_pair {a b : ℚ} (hab : a ≤ b) : sortQ [a, b] = [a, b] := by
  simp [sortQ, List.insertionSort, List.orderedInsert, hab]

lemma quantileLinear_pair (a b : ℚ) (hab : a ≤ b) (p : ℚ) (h0 : 0 ≤ p)
    (h1 : p < 1) : quantileLinear [a, b] p = a + p * (b - a) := by
  simp only [quantileLinear]
  rw [sortQ_pair hab]
  have hlen : (([a, b] : List ℚ).length : ℚ) - 1 = 1 := by norm_num
  rw [hlen, mul_one, ratFloorNat_eq_zero h0 h1]
  simp only [List.getD, List.get?_cons_zero, List.get?_cons_succ,
    Option.getD_some, Nat.cast_zero, sub_zero]

/-! ### Idempotence of the cleaning pass -/

lemma dropDupsAux_eq_self [DecidableEq α] (seen : List α) (l : List α)
    (hnd : l.Nodup) (hdisj : ∀ x ∈ l, x ∉ seen) : dropDupsAux seen l = l := by
  induction l generalizing seen with
  | nil => rfl
  | cons x xs ih =>
    obtain ⟨hx, hndxs⟩ := List.nodup_cons.mp hnd
    simp only [dropDupsAux, if_neg (hdisj x (List.mem_cons_self _ _))]
    congr 1
    refine ih (x :: seen) hndxs fun y hy hmem => ?_
    rcases List.mem_cons.mp hmem with rfl | hmem
    · exact hx hy
    · exact hdisj y (List.mem_cons_of_mem _ hy) hmem

lemma dropDups_eq_self [DecidableEq α] (l : List α) (hnd : l.Nodup) :
    dropDups l = l :=
  dropDupsAux_eq_self [] l hnd (by simp)

lemma stepFill_id (dtParse : String → Bool) (prot names : List String)
    (dtypes : List Dtype) (js : List ℕ) (rows : List (List Cell))
    (h : ∀ j ∈ js, colMissingCount rows j = 0) :
    stepFill dtParse prot names dtypes js rows = (rows, 0) := by
  induction js with
  | nil => rfl
  | cons j js ih =>
    simp only [stepFill]
    by_cases hp : names.getD j "" ∈ prot
    · rw [if_pos hp]
      exact ih fun i hi => h i (List.mem_cons_of_mem _ hi)
    · rw [if_neg hp, if_pos (h j (List.mem_cons_self _ _))]
      exact ih fun i hi => h i (List.mem_cons_of_mem _ hi)

lemma stepText_id (prot names : List String) (js : List ℕ)
    (rows : List (List Cell)) (h : ∀ j ∈ js, colStripChanges rows j = 0) :
    stepText prot names js rows = (rows, 0) := by
  induction js with
  | nil => rfl
  | cons j js ih =>
    simp only [stepText]
    by_cases hp : names.getD j "" ∈ prot
    · rw [if_pos hp]
      exact ih fun i hi => h i (List.mem_cons_of_mem _ hi)
    · rw [if_neg hp, if_pos (h j (List.mem_cons_self _ _))]
      exact ih fun i hi => h i (List.mem_cons_of_mem _ hi)

lemma stepOutliers_id (prot names : List String) (js : List ℕ)
    (rows : List (List Cell)) (h : ∀ j ∈ js, colOutlierCount rows j = 0) :
    stepOutliers prot names js rows = (rows, 0) := by
  induction js with
  | nil => rfl
  | cons j js ih =>
    simp only [stepOutliers]
    by_cases hp : names.getD j "" ∈ prot
    · rw [if_pos hp]
      exact ih fun i hi => h i (List.mem_cons_of_mem _ hi)
    · rw [if_neg hp]
      by_cases hv : finiteVals (getColR rows j) = []
      · rw [if_pos hv]
        exact ih fun i hi => h i (List.mem_cons_of_mem _ hi)
      · rw [if_neg hv]
        have hcnt := h j (List.mem_cons_self _ _)
        unfold colOutlierCount at hcnt
        rw [if_neg hv] at hcnt
        rw [if_pos hcnt]
        exact ih fun i hi => h i (List.mem_cons_of_mem _ hi)

lemma cleanSteps_id (dtParse : String → Bool) (t : Table) (opts : CleanOptions)
    (hnodup : t.rows.Nodup)
    (hmiss : ∀ j ∈ List.range t.ncols, colMissingCount t.rows j = 0)
    (hstrip : ∀ j ∈ objectIdx t, colStripChanges t.rows j = 0)
    (hout : ∀ j ∈ numericIdx t, colOutlierCount t.rows j = 0) :
    cleanSteps dtParse t opts = (t.rows, 0, 0, 0, 0) := by
  have e1 := dropDups_eq_self t.rows hnodup
  have e2 := stepFill_id dtParse opts.protectedColumns t.names t.dtypes
    (List.range t.ncols) t.rows hmiss
  have e3 := stepText_id opts.protectedColumns t.names (objectIdx t) t.rows hstrip
  have e4 := stepOutliers_id opts.protectedColumns t.names (numericIdx t)
    t.rows hout
  obtain ⟨d, f, s, o, p⟩ := opts
  cases d <;> cases f <;> cases s <;> cases o <;>
    simp [cleanSteps, e1, e2, e3, e4]

/-- Claim C8.  For a well-formed nonempty table on which the previous
cleaning pass left nothing to do — no duplicate rows, no missing cells, no
strippable whitespace in the string columns, no values outside any numeric
column's own IQR bounds — a further `apply_cleaning` run with any options
changes nothing: final row count equals the original, every change counter
is zero, the log list is empty, and the re-detected column-type labels are
those of the incoming table. -/
theorem cleaning_idempotent (dtParse : String → Bool) (t : Table)
    (opts : CleanOptions) (_hwf : t.WF) (hr : 1 ≤ t.nrows) (hc : 1 ≤ t.ncols)
    (hnodup : t.rows.Nodup)
    (hmiss : ∀ j ∈ List.range t.ncols, colMissingCount t.rows j = 0)
    (hstrip : ∀ j ∈ objectIdx t, colStripChanges t.rows j = 0)
    (hout : ∀ j ∈ numericIdx t, colOutlierCount t.rows j = 0) :
    ∃ res, applyCleaning dtParse t opts = .ok res ∧
      res.finalRows = res.originalRows ∧ res.originalRows = t.nrows ∧
      res.droppedDuplicates = 0 ∧ res.filledMissing = 0 ∧
      res.textStandardized = 0 ∧ res.outliersCapped = 0 ∧
      res.logs = [] ∧ res.intents = detectColumnTypes dtParse t := by
  obtain ⟨rep, hrep, hscore, -, -, -⟩ := analyzeDataQuality_spec t hr hc
  have hsteps := cleanSteps_id dtParse t opts hnodup hmiss hstrip hout
  have heta : ({ t with rows := t.rows } : Table) = t := rfl
  unfold applyCleaning applyCleaningState
  simp only [hsteps, heta, hrep, hscore, intOfPyFloat]
  exact ⟨_, rfl, rfl, rfl, rfl, rfl, rfl, rfl, rfl, rfl⟩

lemma c8_outlier_count : colOutlierCount c8Table.rows 0 = 0 := by
  have hv : finiteVals (getColR c8Table.rows 0) = [1, 2] := rfl
  simp only [colOutlierCount, hv]
  rw [quantileLinear_pair 1 2 (by norm_num) (1/4) (by norm_num) (by norm_num),
    quantileLinear_pair 1 2 (by norm_num) (3/4) (by norm_num) (by norm_num)]
  norm_num [rowIsOutlier, c8Table, List.countP_cons, List.countP_nil]

/-- Witness for C8 at a clean two-row table with every option enabled. -/
theorem cleaning_idempotent_witness :
    c8Table.rows.Nodup ∧
    ∃ res, applyCleaning (fun _ => false) c8Table
        ⟨true, true, true, true, []⟩ = .ok res ∧
      res.finalRows = res.originalRows ∧ res.originalRows = c8Table.nrows ∧
      res.droppedDuplicates = 0 ∧ res.filledMissing = 0 ∧
      res.textStandardized = 0 ∧ res.outliersCapped = 0 ∧
      res.logs = [] ∧
      res.intents = detectColumnTypes (fun _ => false) c8Table :=
  ⟨by decide, cleaning_idempotent (fun _ => false) c8Table
    ⟨true, true, true, true, []⟩ (by decide) (by decide) (by decide)
    (by decide) (by decide) (by decide)
    (fun j hj => by
      have hj0 : j = 0 := List.mem_singleton.mp hj
      rw [hj0]
      exact c8_outlier_count)⟩


/-! ### Correlations -/

lemma map_sum_range (f : ℚ × ℚ → ℚ) (l : List (ℚ × ℚ)) :
    (l.map f).sum = ∑ i in Finset.range l.length, f (l.getD i (0, 0)) := by
  induction l with
  | nil => simp
  | cons a tl ih =>
    simp only [List.map_cons, List.sum_cons, List.length_cons,
      Finset.sum_range_succ', ih]
    simp [List.getD_cons_succ, List.getD_cons_zero, add_comm]

/-- Cauchy–Schwarz for list sums of pairs. -/
lemma list_sum_mul_sq (l : List (ℚ × ℚ)) :
    ((l.map fun p => p.1 * p.2).sum) ^ 2 ≤
      ((l.map fun p => p.1 ^ 2).sum) * ((l.map fun p => p.2 ^ 2).sum) := by
  rw [map_sum_range, map_sum_range, map_sum_range]
  exact Finset.sum_mul_sq_le_sq_mul_sq _ _ _

/-- Cauchy–Schwarz for centered data: the squared covariance never exceeds
the product of the variances, which is `|r| ≤ 1` for the Pearson
coefficient. -/
lemma centered_cs (xs : List (ℚ × ℚ)) (mx my : ℚ) :
    ((xs.map fun p => (p.1 - mx) * (p.2 - my)).sum) ^ 2 ≤
      ((xs.map fun p => (p.1 - mx) ^ 2).sum) *
        ((xs.map fun p => (p.2 - my) ^ 2).sum) := by
  have key := list_sum_mul_sq (xs.map fun p => (p.1 - mx, p.2 - my))
  simpa [List.map_map, Function.comp_def] using key

lemma corrEntry_val_cs (t : Table) (i j : ℕ) {cov vp : ℚ}
    (h : corrEntry t i j = .val cov vp) : cov ^ 2 ≤ vp := by
  simp only [corrEntry] at h
  split at h
  · exact absurd h (by simp)
  · split at h
    · exact absurd h (by simp)
    · injection h with h1 h2
      rw [← h1, ← h2]
      exact centered_cs _ _ _

lemma upperPairs_mem {l : List ℕ} {i j : ℕ} (h : (i, j) ∈ upperPairs l) :
    i ∈ l ∧ j ∈ l := by
  induction l with
  | nil => simp [upperPairs] at h
  | cons x xs ih =>
    simp only [upperPairs, List.mem_append, List.mem_map] at h
    rcases h with ⟨y, hy, hxy⟩ | h
    · injection hxy with e1 e2
      subst e1; subst e2
      exact ⟨List.mem_cons_self _ _, List.mem_cons_of_mem _ hy⟩
    · obtain ⟨hi, hj⟩ := ih h
      exact ⟨List.mem_cons_of_mem _ hi, List.mem_cons_of_mem _ hj⟩

lemma upperPairs_ne {l : List ℕ} (hnd : l.Nodup) {i j : ℕ}
    (h : (i, j) ∈ upperPairs l) : i ≠ j := by
  induction l with
  | nil => simp [upperPairs] at h
  | cons x xs ih =>
    obtain ⟨hx, hndxs⟩ := List.nodup_cons.mp hnd
    simp only [upperPairs, List.mem_append, List.mem_map] at h
    rcases h with ⟨y, hy, hxy⟩ | h
    · injection hxy with e1 e2
      subst e1; subst e2
      exact fun hh => hx (hh ▸ hy)
    · exact ih hndxs h

lemma validIdx_nodup (t : Table) : (validIdx t).Nodup :=
  List.Nodup.filter _ (List.Nodup.filter _ (List.nodup_range _))

lemma validIdx_lt (t : Table) {i : ℕ} (hi : i ∈ validIdx t) :
    i < t.names.length := by
  have h1 : i ∈ numericIdx t := (List.mem_filter.mp hi).1
  have h2 : i ∈ List.range t.ncols := (List.mem_filter.mp h1).1
  exact List.mem_range.mp h2

lemma name_ne (t : Table) (hnd : t.names.Nodup) {i j : ℕ}
    (hi : i < t.names.length) (hj : j < t.names.length) (hij : i ≠ j) :
    t.name i ≠ t.name j := by
  intro h
  rw [Table.name, Table.name, List.getD_eq_getElem _ _ hi,
    List.getD_eq_getElem _ _ hj] at h
  exact hij (List.Nodup.getElem_inj_iff hnd |>.mp h)

lemma buildEdges_ok (t : Table) (method : String) (ps : List (ℕ × ℕ)) :
    ∀ es, buildEdges t method ps = .ok es →
      es = ps.filterMap (edgeOfPair t) := by
  induction ps with
  | nil =>
    intro es h
    simp only [buildEdges] at h
    injection h with h
    simp [h.symm]
  | cons pr rest ih =>
    intro es h
    obtain ⟨i, j⟩ := pr
    simp only [buildEdges] at h
    rcases hce : corrEntry t i j with _ | ⟨cov, vp⟩
    · rw [hce] at h
      have h' : buildEdges t method rest = .ok es := h
      rw [List.filterMap_cons,
        show edgeOfPair t (i, j) = none from by simp [edgeOfPair, hce]]
      exact ih es h'
    · rw [hce] at h
      have h' : (if (method = "pearson" ∨ method = "spearman") ∧
            nonMissingCount t i ≠ nonMissingCount t j then
              (Except.error () : Except Unit (List CorrEdge))
          else
            match buildEdges t method rest with
            | .error e => .error e
            | .ok es' => .ok
                ({ column1 := t.name i, column2 := t.name j, cov := cov,
                   varProd := vp,
                   strength := classifyStrengthEnc cov vp } :: es')) = .ok es := h
      clear h
      split at h'
      · exact Except.noConfusion h'
      · rcases hbr : buildEdges t method rest with e | es'
        · rw [hbr] at h'
          exact Except.noConfusion h'
        · rw [hbr] at h'
          have h'' : Except.ok
              ({ column1 := t.name i, column2 := t.name j, cov := cov,
                 varProd := vp,
                 strength := classifyStrengthEnc cov vp } :: es') =
              (Except.ok es : Except Unit (List CorrEdge)) := h'
          injection h'' with h''
          rw [List.filterMap_cons,
            show edgeOfPair t (i, j) = some
              { column1 := t.name i, column2 := t.name j, cov := cov,
                varProd := vp, strength := classifyStrengthEnc cov vp }
              from by simp [edgeOfPair, hce]]
          rw [← h'', ih es' hbr]

/-- Claim C5 (amended).  `calculate_correlations` returns one of its two
`'error'` values exactly when fewer than two numeric columns with a finite
value qualify.  Otherwise (and when the p-value computation does not raise)
the edge list consists of one edge per unordered pair of qualifying columns
whose matrix coefficient is defined — NaN pairs are skipped, which refutes
the claim's unconditional "one edge per unordered pair" (see the
counterexample below) — no edge pairs a column with itself, every
coefficient satisfies `|r| ≤ 1` (encoded: `cov² ≤ varProd`), and the
strength bucket is the absolute-value classification with thresholds
0.7 / 0.4 / 0.2. -/
theorem correlations_spec (t : Table) (hnd : t.names.Nodup) (method : String) :
    ((∃ msg, calculateCorrelations t method = .errVal msg) ↔
      (validIdx t).length < 2) ∧
    (∀ out, calculateCorrelations t method = .ok out →
      out.edges.Perm ((upperPairs (validIdx t)).filterMap (edgeOfPair t)) ∧
      ∀ e ∈ out.edges, e.column1 ≠ e.column2 ∧ e.cov ^ 2 ≤ e.varProd ∧
        e.strength = classifyStrengthEnc e.cov e.varProd) := by
  constructor
  · constructor
    · rintro ⟨msg, hmsg⟩
      unfold calculateCorrelations at hmsg
      by_cases h1 : (numericIdx t).length < 2
      · exact lt_of_le_of_lt (List.length_filter_le _ _) h1
      · rw [if_neg h1] at hmsg
        by_cases h2 : (validIdx t).length < 2
        · exact h2
        · rw [if_neg h2] at hmsg
          split at hmsg <;> simp at hmsg
    · intro h2
      unfold calculateCorrelations
      by_cases h1 : (numericIdx t).length < 2
      · rw [if_pos h1]
        exact ⟨_, rfl⟩
      · rw [if_neg h1, if_pos h2]
        exact ⟨_, rfl⟩
  · intro out hout
    unfold calculateCorrelations at hout
    by_cases h1 : (numericIdx t).length < 2
    · rw [if_pos h1] at hout
      exact absurd hout (by simp)
    · rw [if_neg h1] at hout
      by_cases h2 : (validIdx t).length < 2
      · rw [if_pos h2] at hout
        exact absurd hout (by simp)
      · rw [if_neg h2] at hout
        rcases hbe : buildEdges t method (upperPairs (validIdx t)) with e | es
        · rw [hbe] at hout
          exact absurd hout (by simp)
        · rw [hbe] at hout
          injection hout with hout
          subst hout
          have hes := buildEdges_ok t method _ es hbe
          constructor
          · exact (List.perm_insertionSort _ es).trans (hes ▸ List.Perm.refl _)
          · intro e he
            have he' : e ∈ es := (List.perm_insertionSort _ es).mem_iff.mp he
            rw [hes] at he'
            obtain ⟨⟨i, j⟩, hpair, hedge⟩ := List.mem_filterMap.1 he'
            rcases hce : corrEntry t i j with _ | ⟨cov, vp⟩
            · simp [edgeOfPair, hce] at hedge
            · rw [show edgeOfPair t (i, j) = some
                  { column1 := t.name i, column2 := t.name j, cov := cov,
                    varProd := vp, strength := classifyStrengthEnc cov vp }
                  from by simp [edgeOfPair, hce]] at hedge
              injection hedge with hedge
              subst hedge
              obtain ⟨hi, hj⟩ := upperPairs_mem hpair
              refine ⟨?_, corrEntry_val_cs t i j hce, rfl⟩
              exact name_ne t hnd (validIdx_lt t hi) (validIdx_lt t hj)
                (upperPairs_ne (validIdx_nodup t) hpair)

lemma c5_corrEntry_nan : corrEntry c5NanTable 0 1 = .nan := by
  have hpc : pairedCells c5NanTable 0 1 =
      [(Cell.num 1, Cell.num 5), (Cell.num 2, Cell.num 5)] := rfl
  simp only [corrEntry, hpc]
  norm_num [List.any_cons, List.any_nil, Cell.isInf, List.filterMap_cons,
    meanQ]

/-- Claim C5, counterexample to "one edge per unordered pair of qualifying
columns": both columns of `c5NanTable` qualify (each has finite values), no
error is returned, yet the edge list is empty because the single pair's
Pearson coefficient is NaN (`y` is constant) and the loop skips it. -/
theorem correlations_skip_nan_pair :
    (validIdx c5NanTable).length = 2 ∧
    upperPairs (validIdx c5NanTable) = [(0, 1)] ∧
    ∃ out, calculateCorrelations c5NanTable "pearson" = .ok out ∧
      out.edges = [] := by
  refine ⟨by decide, by decide, ?_⟩
  have hpairs : upperPairs (validIdx c5NanTable) = [(0, 1)] := by decide
  have hbe : buildEdges c5NanTable "pearson"
      (upperPairs (validIdx c5NanTable)) = .ok [] := by
    rw [hpairs]
    simp only [buildEdges, c5_corrEntry_nan]
  unfold calculateCorrelations
  rw [if_neg (by decide), if_neg (by decide), hbe]
  exact ⟨_, rfl, rfl⟩

/-- Witness for the amended C5 at the concrete two-column table. -/
theorem correlations_spec_witness :
    c5NanTable.names.Nodup ∧
    ((∃ msg, calculateCorrelations c5NanTable "pearson" = .errVal msg) ↔
      (validIdx c5NanTable).length < 2) :=
  ⟨by decide, (correlations_spec c5NanTable (by decide) "pearson").1⟩

end EDA
